import Mathlib

/-!
Shallow embedding of the X-Scheduler scheduled-post store and due-post
processor (src/x-scheduler/scripts/scheduler.py), together with theorems
about its operations: add, list, cancel, history, and post-due.

A directory is modelled as an association list from file names to file
contents; a file content is either a well-formed scheduled-post JSON
record or malformed data (anything json.load would reject).  The external
publisher (post_to_x, which wraps the tweepy client and the process
environment) is a parameter: a function from the fields it reads out of
the record (text, reply_to, quote_tweet_id) to either a result or a
raised error message, matching the Publisher contract.
-/

/-- A scheduled-post JSON record.  Each field that may be absent from the
JSON object is an `Option`; `none` models both an absent key and JSON
null (the script writes null for absent reply_to / quote_tweet_id and
reads absent keys with dict.get, which yields None). -/
structure Post where
  id : Option String := none
  text : Option String := none
  scheduled_at : Option String := none
  created_at : Option String := none
  status : Option String := none
  label : Option String := none
  reply_to : Option String := none
  quote_tweet_id : Option String := none
  posted_at : Option String := none
  tweet_id : Option String := none
  tweet_url : Option String := none
  error : Option String := none
deriving DecidableEq, Repr

/-- Contents of one file: either data that json.load rejects, or a
decoded post record. -/
inductive FileContent where
  | malformed
  | record (p : Post)
deriving DecidableEq, Repr

/-- A directory: association list from file name to content. -/
abbrev Dir := List (String × FileContent)

/-- filepath.exists for a name inside a directory. -/
def hasFile (d : Dir) (n : String) : Bool :=
  d.any (fun f => f.1 == n)

/-- Read the content stored under a name (open + json.load view). -/
def getFile : Dir → String → Option FileContent
  | [], _ => none
  | f :: fs, n => if f.1 == n then some f.2 else getFile fs n

/-- filepath.unlink: remove every entry with the given name. -/
def removeFile (d : Dir) (n : String) : Dir :=
  d.filter (fun f => !(f.1 == n))

/-- open(path, w) + write: create the file or overwrite an existing one. -/
def writeFile (d : Dir) (n : String) (c : FileContent) : Dir :=
  removeFile d n ++ [(n, c)]

/-! ### String ordering and a stable sort

Python compares strings lexicographically by code point, and list.sort
is a stable sort.  We model both directly: `strLe` is code-point
lexicographic order, and `stableSort` is a stable insertion sort (each
new element is inserted after all existing elements that compare
less-or-equal to it, which preserves the original order of equals, as
Python's sort does). -/

def strLeChars : List Char → List Char → Bool
  | [], _ => true
  | _ :: _, [] => false
  | a :: as, b :: bs =>
    if a.toNat < b.toNat then true
    else if b.toNat < a.toNat then false
    else strLeChars as bs

def strLe (a b : String) : Bool := strLeChars a.data b.data

def stableInsert (le : α → α → Bool) (a : α) : List α → List α
  | [] => [a]
  | b :: l => if le b a then b :: stableInsert le a l else a :: b :: l

def stableSort (le : α → α → Bool) (l : List α) : List α :=
  l.foldl (fun acc x => stableInsert le x acc) []

/-- startswith, on our string model. -/
def strStartsWith (s p : String) : Bool := p.data.isPrefixOf s.data

/-- endswith, on our string model. -/
def strEndsWith (s p : String) : Bool := p.data.reverse.isPrefixOf s.data.reverse

/-- The filter applied by glob_json: name matches *.json and does not
start with the macOS metadata prefix. -/
def globFilter (n : String) : Bool :=
  strEndsWith n ".json" && !(strStartsWith n "._")

/-- glob_json: the *.json files of a directory, excluding names starting
with the reserved prefix, sorted by name. -/
def glob_json (d : Dir) : List (String × FileContent) :=
  stableSort (fun f g => strLe f.1 g.1) (d.filter (fun f => globFilter f.1))

/-! ### Dates and instants

Python datetimes are modelled by their wall-clock fields plus an
optional UTC offset in seconds (`none` = naive datetime).  Comparison of
two aware datetimes compares the absolute instants; `instant` computes
that instant in microseconds from a fixed epoch. -/

def isLeapYear (y : Nat) : Bool :=
  (y % 4 == 0 && y % 100 != 0) || y % 400 == 0

def daysInMonth (y m : Nat) : Nat :=
  if m == 2 then (if isLeapYear y then 29 else 28)
  else if m == 4 || m == 6 || m == 9 || m == 11 then 30
  else 31

/-- Day number of a civil date (Julian day number; only injectivity and
monotonicity matter, both sides of every comparison use this map). -/
def daysFromCivil (y m d : Nat) : Nat :=
  let a := (14 - m) / 12
  let y2 := y + 4800 - a
  let m2 := m + 12 * a - 3
  d + (153 * m2 + 2) / 5 + 365 * y2 + y2 / 4 - y2 / 100 + y2 / 400 - 32045

structure PyDateTime where
  year : Nat
  month : Nat
  day : Nat
  hour : Nat := 0
  minute : Nat := 0
  second : Nat := 0
  microsecond : Nat := 0
  offset : Option Int := none
deriving DecidableEq, Repr

/-- Absolute instant of a datetime in microseconds, reading a missing
offset as 0.  All uses normalize the offset first, mirroring the
source, which only ever compares aware datetimes. -/
def instant (t : PyDateTime) : Int :=
  ((daysFromCivil t.year t.month t.day * 86400
      + t.hour * 3600 + t.minute * 60 + t.second : Nat) : Int) * 1000000
    + (t.microsecond : Int) - (t.offset.getD 0) * 1000000

/-! ### datetime.fromisoformat

Model of Python's datetime.fromisoformat restricted to the dashed
date / colon time forms that this tool reads and writes:
YYYY-MM-DD, optionally followed by a separator (T, t or space) and
HH[:MM[:SS[(.|,)1-6 fraction digits]]], optionally followed by an
offset Z, z, +HH, -HH, +HH:MM[:SS], -HH:MM[:SS], +HHMM or -HHMM.
Component ranges are validated as CPython does (year 1..9999, month
1..12, day within the month, hour below 24, minute and second below
60, offset hour below 24). -/

def digitVal (c : Char) : Nat := c.toNat - '0'.toNat

def read2 : List Char → Option (Nat × List Char)
  | a :: b :: rest =>
    if a.isDigit && b.isDigit then some (digitVal a * 10 + digitVal b, rest) else none
  | _ => none

def read4 (cs : List Char) : Option (Nat × List Char) :=
  match read2 cs with
  | some (hi, rest) =>
    match read2 rest with
    | some (lo, rest2) => some (hi * 100 + lo, rest2)
    | none => none
  | none => none

def readFracAux : Nat → Nat → List Char → Option (Nat × List Char)
  | ndigits, acc, c :: rest =>
    if c.isDigit then
      if 6 ≤ ndigits then none
      else readFracAux (ndigits + 1) (acc * 10 + digitVal c) rest
    else if ndigits == 0 then none
    else some (acc * 10 ^ (6 - ndigits), c :: rest)
  | ndigits, acc, [] =>
    if ndigits == 0 then none else some (acc * 10 ^ (6 - ndigits), [])

def readOffset : List Char → Option (Int × List Char)
  | [] => none
  | c :: rest =>
    if c == 'Z' || c == 'z' then some (0, rest)
    else if c == '+' || c == '-' then
      match read2 rest with
      | none => none
      | some (oh, r1) =>
        if 24 ≤ oh then none else
        let sign : Int := if c == '-' then -1 else 1
        match r1 with
        | ':' :: r2 =>
          match read2 r2 with
          | none => none
          | some (om, r3) =>
            if 60 ≤ om then none else
            match r3 with
            | ':' :: r4 =>
              match read2 r4 with
              | none => none
              | some (os, r5) =>
                if 60 ≤ os then none
                else some (sign * (oh * 3600 + om * 60 + os), r5)
            | _ => some (sign * (oh * 3600 + om * 60), r3)
        | _ =>
          match read2 r1 with
          | some (om, r2) =>
            if 60 ≤ om then none else some (sign * (oh * 3600 + om * 60), r2)
          | none => some (sign * (oh * 3600), r1)
    else none

def finishIsoTime (h m s us : Nat) (rest : List Char) :
    Option (Nat × Nat × Nat × Nat × Option Int) :=
  if 24 ≤ h || 60 ≤ m || 60 ≤ s then none
  else
    match rest with
    | [] => some (h, m, s, us, none)
    | _ =>
      match readOffset rest with
      | some (off, []) => some (h, m, s, us, some off)
      | _ => none

def fromisoTime (cs : List Char) : Option (Nat × Nat × Nat × Nat × Option Int) :=
  match read2 cs with
  | none => none
  | some (h, r1) =>
    match r1 with
    | ':' :: r2 =>
      match read2 r2 with
      | none => none
      | some (m, r3) =>
        match r3 with
        | ':' :: r4 =>
          match read2 r4 with
          | none => none
          | some (s, r5) =>
            match r5 with
            | '.' :: r6 =>
              match readFracAux 0 0 r6 with
              | some (us, r7) => finishIsoTime h m s us r7
              | none => none
            | ',' :: r6 =>
              match readFracAux 0 0 r6 with
              | some (us, r7) => finishIsoTime h m s us r7
              | none => none
            | _ => finishIsoTime h m s 0 r5
        | _ => finishIsoTime h m 0 0 r3
    | _ => finishIsoTime h 0 0 0 r1

def fromisoformat (str : String) : Option PyDateTime :=
  match read4 str.data with
  | none => none
  | some (y, r1) =>
    match r1 with
    | '-' :: r2 =>
      match read2 r2 with
      | none => none
      | some (m, r3) =>
        match r3 with
        | '-' :: r4 =>
          match read2 r4 with
          | none => none
          | some (d, r5) =>
            if y == 0 || m == 0 || 13 ≤ m || d == 0 || daysInMonth y m < d then none
            else
              match r5 with
              | [] => some { year := y, month := m, day := d }
              | sep :: r6 =>
                if sep == 'T' || sep == 't' || sep == ' ' then
                  match fromisoTime r6 with
                  | some (h, mi, s, us, off) =>
                    some { year := y, month := m, day := d, hour := h,
                           minute := mi, second := s, microsecond := us, offset := off }
                  | none => none
                else none
        | _ => none
    | _ => none

/-! ### datetime.strptime for the two formats tried by cmd_add

CPython strptime compiles the format into a regex: %Y matches exactly
four digits, %m matches 1[0-2], 0[1-9] or a single 1-9, %d matches
3[01], [12] then a digit, 0[1-9] or a single 1-9, %H matches 2[0-3],
[01] then a digit or a single digit, %M matches [0-5] then a digit or a
single digit, a space in the format matches one or more whitespace
characters, and the whole input must be consumed.  The regex engine
backtracks, which the continuation argument of `pField` reproduces: the
two-digit alternative is tried first and the one-digit alternative is
tried when the remainder of the parse fails.  Finally the datetime
constructor validates the day against the month length and rejects
year 0, which `mkNaive` reproduces. -/

def pNum2 (lo hi : Nat) : List Char → Option (Nat × List Char)
  | a :: b :: rest =>
    if a.isDigit && b.isDigit then
      let v := digitVal a * 10 + digitVal b
      if lo ≤ v && v ≤ hi then some (v, rest) else none
    else none
  | _ => none

def pNum1 (lo : Nat) : List Char → Option (Nat × List Char)
  | a :: rest =>
    if a.isDigit && lo ≤ digitVal a then some (digitVal a, rest) else none
  | _ => none

def pField (lo2 hi2 lo1 : Nat) (cs : List Char)
    (k : Nat → List Char → Option α) : Option α :=
  (match pNum2 lo2 hi2 cs with
   | some (v, rest) => k v rest
   | none => none).orElse fun _ =>
    match pNum1 lo1 cs with
    | some (v, rest) => k v rest
    | none => none

def skipWs : List Char → List Char
  | c :: rest => if c.isWhitespace then skipWs rest else c :: rest
  | [] => []

def pSpaces : List Char → Option (List Char)
  | c :: rest => if c.isWhitespace then some (skipWs rest) else none
  | [] => none

def pLit (c : Char) : List Char → Option (List Char)
  | x :: rest => if x == c then some rest else none
  | [] => none

/-- The datetime constructor run by strptime: validates the day against
the month and rejects year 0 (MINYEAR is 1). -/
def mkNaive (y m d h mi s : Nat) : Option PyDateTime :=
  if 1 ≤ y && 1 ≤ d && d ≤ daysInMonth y m then
    some { year := y, month := m, day := d, hour := h, minute := mi, second := s }
  else none

/-- strptime with format %Y-%m-%d %H:%M. -/
def strptimeYmdHM (str : String) : Option PyDateTime :=
  match read4 str.data with
  | none => none
  | some (y, r1) =>
  match pLit '-' r1 with
  | none => none
  | some r2 =>
  pField 1 12 1 r2 fun m r3 =>
  match pLit '-' r3 with
  | none => none
  | some r4 =>
  pField 1 31 1 r4 fun d r5 =>
  match pSpaces r5 with
  | none => none
  | some r6 =>
  pField 0 23 0 r6 fun h r7 =>
  match pLit ':' r7 with
  | none => none
  | some r8 =>
  pField 0 59 0 r8 fun mi r9 =>
  match r9 with
  | [] => mkNaive y m d h mi 0
  | _ => none

/-- strptime with format %Y-%m-%d %H:%M:%S. -/
def strptimeYmdHMS (str : String) : Option PyDateTime :=
  match read4 str.data with
  | none => none
  | some (y, r1) =>
  match pLit '-' r1 with
  | none => none
  | some r2 =>
  pField 1 12 1 r2 fun m r3 =>
  match pLit '-' r3 with
  | none => none
  | some r4 =>
  pField 1 31 1 r4 fun d r5 =>
  match pSpaces r5 with
  | none => none
  | some r6 =>
  pField 0 23 0 r6 fun h r7 =>
  match pLit ':' r7 with
  | none => none
  | some r8 =>
  pField 0 59 0 r8 fun mi r9 =>
  match pLit ':' r9 with
  | none => none
  | some r10 =>
  pField 0 59 0 r10 fun s r11 =>
  match r11 with
  | [] => mkNaive y m d h mi s
  | _ => none

/-- args.datetime.replace, turning every T into a space. -/
def replaceT (s : String) : String :=
  String.mk (s.data.map fun c => if c == 'T' then ' ' else c)

/-- The try/except chain of cmd_add: first %Y-%m-%d %H:%M, then
%Y-%m-%d %H:%M:%S. -/
def strptime_add (dt_str : String) : Option PyDateTime :=
  (strptimeYmdHM dt_str).orElse fun _ => strptimeYmdHMS dt_str

/-! ### Rendering: strftime %Y%m%d_%H%M%S and datetime.isoformat -/

def pad2 (n : Nat) : String := if n < 10 then "0" ++ toString n else toString n

def pad4 (n : Nat) : String :=
  if n < 10 then "000" ++ toString n
  else if n < 100 then "00" ++ toString n
  else if n < 1000 then "0" ++ toString n
  else toString n

def pad6 (n : Nat) : String :=
  if n < 10 then "00000" ++ toString n
  else if n < 100 then "0000" ++ toString n
  else if n < 1000 then "000" ++ toString n
  else if n < 10000 then "00" ++ toString n
  else if n < 100000 then "0" ++ toString n
  else toString n

/-- Rendering of a UTC offset inside isoformat output: sign, hours,
minutes, and seconds only when the offset is not a whole minute. -/
def offsetIso (off : Int) : String :=
  let a := off.natAbs
  (if off < 0 then "-" else "+") ++ pad2 (a / 3600) ++ ":" ++ pad2 (a % 3600 / 60)
    ++ (if a % 60 == 0 then "" else ":" ++ pad2 (a % 60))

/-- datetime.isoformat: date, T, time, optional fraction, optional
offset. -/
def isoformatOf (t : PyDateTime) : String :=
  pad4 t.year ++ "-" ++ pad2 t.month ++ "-" ++ pad2 t.day ++ "T"
    ++ pad2 t.hour ++ ":" ++ pad2 t.minute ++ ":" ++ pad2 t.second
    ++ (if t.microsecond == 0 then "" else "." ++ pad6 t.microsecond)
    ++ (match t.offset with
        | none => ""
        | some off => offsetIso off)

/-- scheduled_at.strftime of the compact pattern %Y%m%d_%H%M%S, using
the wall-clock fields.  The platform strftime (glibc and BSD, the
environments this tool runs on, checked against CPython 3.11) renders
%Y as a plain decimal without zero padding, so years below 1000
produce fewer than four digits; every other component is zero-padded
to two digits. -/
def compactTs (t : PyDateTime) : String :=
  toString t.year ++ pad2 t.month ++ pad2 t.day ++ "_"
    ++ pad2 t.hour ++ pad2 t.minute ++ pad2 t.second

/-- generate_post_id.  The md5 hexdigest over the timestamp and the
current-time isoformat is external randomness and is passed in as
`digest`; hashlib hexdigest always yields 32 lowercase hex digits, and
the source keeps its first 6 characters. -/
def generate_post_id (t : PyDateTime) (digest : String) : String :=
  compactTs t ++ "_" ++ String.mk (digest.data.take 6)

/-! ### cmd_add

The external inputs of cmd_add are passed as parameters: `tzOffset` is
the UTC offset that ZoneInfo assigns to the requested wall-clock time
(`none` when ZoneInfo raises for an unknown timezone name, which
escapes uncaught), `digest` is the md5 hexdigest drawn inside
generate_post_id, `nowInstant` and `nowIso` are the current time.  The
error value carries the directory at exit: both validation exits
(unknown timezone, unparseable datetime) happen before the file write,
so the store is returned unchanged. -/

structure AddResult where
  dir : Dir
  post : Post
  warned : Bool
deriving DecidableEq, Repr

def cmd_add (text datetimeArg : String) (replyTo quote label : Option String)
    (tzOffset : Option Int) (digest : String) (nowInstant : Int) (nowIso : String)
    (dir : Dir) : Except Dir AddResult :=
  match tzOffset with
  | none => .error dir
  | some off =>
    match strptime_add (replaceT datetimeArg) with
    | none => .error dir
    | some naive =>
      let scheduled : PyDateTime := { naive with offset := some off }
      let warned := decide (instant scheduled ≤ nowInstant)
      let post_id := generate_post_id scheduled digest
      let post : Post := {
        id := some post_id,
        text := some text,
        scheduled_at := some (isoformatOf scheduled),
        created_at := some nowIso,
        status := some "pending",
        label := some (label.getD ""),
        reply_to := replyTo,
        quote_tweet_id := quote }
      .ok { dir := writeFile dir (post_id ++ ".json") (.record post),
            post := post, warned := warned }

/-! ### cmd_list and cmd_history

Both model the loading loop (json.load on every globbed file, where
malformed data raises and aborts the command), the empty check, and the
sort.  cmd_list keeps only records whose status is pending before
sorting ascending by the raw scheduled_at string.  cmd_history keeps
everything and sorts descending (reverse=True keeps the sort stable
with the comparison reversed) by posted_at, falling back to
scheduled_at — but the fallback expression x['scheduled_at'] is
evaluated eagerly as the default argument of dict.get, so every record
must carry scheduled_at or the sort raises KeyError even when
posted_at is present.  The pretty-printing loop that follows the sort
in both commands is display-only and is not modelled. -/

def listLoad : List (String × FileContent) → Except Unit (List Post)
  | [] => .ok []
  | (_, .malformed) :: _ => .error ()
  | (_, .record p) :: rest =>
    if p.status == some "pending" then
      match listLoad rest with
      | .ok ps => .ok (p :: ps)
      | .error e => .error e
    else listLoad rest

def cmd_list (dir : Option Dir) : Except Unit (List Post) :=
  match dir with
  | none => .ok []
  | some d =>
    match listLoad (glob_json d) with
    | .error e => .error e
    | .ok posts =>
      if posts.isEmpty then .ok []
      else if posts.all (fun p => p.scheduled_at.isSome) then
        .ok (stableSort
          (fun a b => strLe (a.scheduled_at.getD "") (b.scheduled_at.getD "")) posts)
      else .error ()

def historyLoad : List (String × FileContent) → Except Unit (List Post)
  | [] => .ok []
  | (_, .malformed) :: _ => .error ()
  | (_, .record p) :: rest =>
    match historyLoad rest with
    | .ok ps => .ok (p :: ps)
    | .error e => .error e

def historyKey (p : Post) : String :=
  p.posted_at.getD (p.scheduled_at.getD "")

def cmd_history (dir : Option Dir) : Except Unit (List Post) :=
  match dir with
  | none => .ok []
  | some d =>
    match historyLoad (glob_json d) with
    | .error e => .error e
    | .ok posts =>
      if posts.isEmpty then .ok []
      else if posts.all (fun p => p.scheduled_at.isSome) then
        .ok (stableSort (fun a b => strLe (historyKey b) (historyKey a)) posts)
      else .error ()

/-! ### cmd_cancel -/

def cmd_cancel (pending : Dir) (post_id : String) : Except Dir Dir :=
  if hasFile pending (post_id ++ ".json") then
    .ok (removeFile pending (post_id ++ ".json"))
  else .error pending

/-! ### cmd_post_due -/

structure PubResult where
  tweet_id : Option String := none
  url : Option String := none
deriving DecidableEq, Repr

/-- The Publisher boundary: post_to_x (lines 248-287) reads text,
reply_to and quote_tweet_id out of the record, wraps the tweepy client
and the process environment, and either returns a result dict or
raises an error carrying a string message.  It is a parameter of the
processor. -/
abbrev Publisher := Option String → Option String → Option String → Except String PubResult

structure DueState where
  pending : Dir
  done : Dir
  calls : List (Option String × Option String × Option String)
  count : Nat
deriving DecidableEq, Repr

/-- The record update on one due post (lines 225-236): on success
status becomes posted with tweet_id and url recorded (url defaulting
to the empty string), on any raised error status becomes failed with
the stringified error recorded; either way posted_at is set to the
current UTC time. -/
def outcomeRecord (pub : Publisher) (nowIso : String) (d : Post) : Post :=
  match pub d.text d.reply_to d.quote_tweet_id with
  | .ok r =>
    { d with status := some "posted", posted_at := some nowIso,
             tweet_id := r.tweet_id, tweet_url := some (r.url.getD "") }
  | .error e =>
    { d with status := some "failed", error := some e, posted_at := some nowIso }

/-- The tzinfo-is-None normalization of lines 217-218: a naive
scheduled_at is reinterpreted as UTC, an aware one is kept. -/
def normalizeUTC (t : PyDateTime) : PyDateTime :=
  match t.offset with
  | none => { t with offset := some 0 }
  | some _ => t

/-- One iteration of the post-due loop (lines 209-243) on one globbed
file.  Records whose status is not pending are skipped; a pending
record has its scheduled_at parsed, a missing offset replaced by UTC,
and is skipped when it is scheduled strictly after now; otherwise the
publish call is made inside try/except and the updated record is
written to done and removed from the pending store.  An exception
outside the try block (malformed JSON, missing or unparseable
scheduled_at) aborts the whole run; the error value is the state
already reached. -/
def dueStep (pub : Publisher) (now : Int) (nowIso : String)
    (st : DueState) (f : String × FileContent) : Except DueState DueState :=
  match f.2 with
  | .malformed => .error st
  | .record data =>
    if !(data.status == some "pending") then .ok st
    else
      match data.scheduled_at with
      | none => .error st
      | some s =>
        match fromisoformat s with
        | none => .error st
        | some t =>
          if now < instant (normalizeUTC t) then .ok st
          else
            .ok { pending := removeFile st.pending f.1,
                  done := writeFile st.done f.1 (.record (outcomeRecord pub nowIso data)),
                  calls := st.calls ++ [(data.text, data.reply_to, data.quote_tweet_id)],
                  count := st.count + 1 }

def dueFold (pub : Publisher) (now : Int) (nowIso : String) :
    DueState → List (String × FileContent) → Except DueState DueState
  | st, [] => .ok st
  | st, f :: fs =>
    match dueStep pub now nowIso st f with
    | .ok st2 => dueFold pub now nowIso st2 fs
    | .error st2 => .error st2

/-- cmd_post_due: iterate the due-post loop over the glob snapshot of
the scheduled directory.  A missing scheduled directory returns with
nothing done.  `now` is the single current instant of the pass and
`nowIso` its isoformat rendering. -/
def cmd_post_due (pub : Publisher) (now : Int) (nowIso : String)
    (scheduled : Option Dir) (done : Dir) : Except DueState DueState :=
  match scheduled with
  | none => .ok { pending := [], done := done, calls := [], count := 0 }
  | some sd =>
    dueFold pub now nowIso
      { pending := sd, done := done, calls := [], count := 0 } (glob_json sd)

/-! ### Derived predicates and result descriptions used by the theorems -/

/-- The decoded record of a file (meaningless on malformed files, which
every use excludes). -/
def recOf (f : String × FileContent) : Post :=
  match f.2 with
  | .record p => p
  | .malformed => {}

/-- A due file: a record with status pending whose scheduled_at parses
and whose instant, normalized to UTC when it carries no offset, is at
or before now. -/
def isDueFile (now : Int) (f : String × FileContent) : Bool :=
  match f.2 with
  | .malformed => false
  | .record d =>
    d.status == some "pending" &&
      (match d.scheduled_at with
       | none => false
       | some s =>
         match fromisoformat s with
         | none => false
         | some t =>
           !(decide (now < instant (normalizeUTC t))))

/-- A file the post-due loop handles without raising: decodable, and if
its status is pending, its scheduled_at is present and parses. -/
def wfFile (f : String × FileContent) : Bool :=
  match f.2 with
  | .malformed => false
  | .record d =>
    !(d.status == some "pending") ||
      (match d.scheduled_at with
       | none => false
       | some s => (fromisoformat s).isSome)

/-- The argument triple handed to the publish operation for a file. -/
def callOf (f : String × FileContent) : Option String × Option String × Option String :=
  ((recOf f).text, (recOf f).reply_to, (recOf f).quote_tweet_id)

/-- The pending-status records among a list of decoded files (what the
cmd_list loading loop accumulates when nothing is malformed). -/
def pendingOf (files : List (String × FileContent)) : List Post :=
  files.filterMap fun f =>
    match f.2 with
    | .record p => if p.status == some "pending" then some p else none
    | .malformed => none

/-- All records among a list of decoded files. -/
def recordsOf (files : List (String × FileContent)) : List Post :=
  files.filterMap fun f =>
    match f.2 with
    | .record p => some p
    | .malformed => none

/-- No file name occurs in both directories. -/
def dirsDisjoint (a b : Dir) : Bool :=
  a.all fun f => !(hasFile b f.1)

/-- The final state of a post-due pass over a list of globbed files:
each due file is removed from the pending store, written to done with
its outcome record, logged as a publish call, and counted. -/
def dueResult (pub : Publisher) (now : Int) (nowIso : String)
    (files : List (String × FileContent)) (st : DueState) : DueState :=
  { pending := (files.filter (isDueFile now)).foldl
      (fun p f => removeFile p f.1) st.pending,
    done := (files.filter (isDueFile now)).foldl
      (fun d f => writeFile d f.1 (.record (outcomeRecord pub nowIso (recOf f)))) st.done,
    calls := st.calls ++ (files.filter (isDueFile now)).map callOf,
    count := st.count + (files.filter (isDueFile now)).length }

/-- Lowercase hexadecimal digit, the alphabet of hashlib hexdigest
output. -/
def isHexDigit (c : Char) : Bool := c.isDigit || ('a' ≤ c && c ≤ 'f')

/-- The id shape asserted by the C8 claim, following the claim's words
for comparison with the code's rendering: YYYYMMDD_HHMMSS, an
underscore, and 6 hex digits. -/
def specIdPattern (s : String) : Bool :=
  s.data.length == 22 &&
  (s.data.take 8).all Char.isDigit &&
  (s.data.drop 8).take 1 == ['_'] &&
  ((s.data.drop 9).take 6).all Char.isDigit &&
  (s.data.drop 15).take 1 == ['_'] &&
  (s.data.drop 16).all isHexDigit

/-! ### Concrete sample data exercised by the witnesses -/

/-- A 32-character lowercase hex digest, the shape of hashlib md5
hexdigest output. -/
def hexDigestSample : String := "0123456789abcdef0123456789abcdef"

/-- The Section 8 scenario add call; Asia/Tokyo is UTC+9 (offset 32400
seconds). -/
def addScenario : Except Dir AddResult :=
  cmd_add "Hello" "2026-02-25 09:00" none none none (some 32400) hexDigestSample 0
    "2026-01-01T00:00:00+09:00" []

def addScenarioRes : AddResult :=
  addScenario.toOption.getD { dir := [], post := {}, warned := false }

/-- A due pending post (scheduled 2026-01-01 09:00 Tokyo time). -/
def pDue : Post :=
  { id := some "20260101_090000_aaaaaa", text := some "due post",
    scheduled_at := some "2026-01-01T09:00:00+09:00",
    created_at := some "2025-12-01T00:00:00+09:00",
    status := some "pending", label := some "",
    reply_to := none, quote_tweet_id := none }

/-- A pending post scheduled in the future (2027). -/
def pFuture : Post :=
  { pDue with
    id := some "20270101_090000_bbbbbb",
    text := some "future post",
    scheduled_at := some "2027-01-01T09:00:00+09:00" }

/-- A sample pending store holding one due and one future post. -/
def sdSample : Dir :=
  [("20260101_090000_aaaaaa.json", FileContent.record pDue),
   ("20270101_090000_bbbbbb.json", FileContent.record pFuture)]

/-- The instant 2026-06-01T00:00:00+00:00 used as now. -/
def nowSample : Int :=
  instant { year := 2026, month := 6, day := 1, offset := some 0 }

/-- A publisher that always succeeds. -/
def pubOk : Publisher :=
  fun _ _ _ => .ok { tweet_id := some "1", url := some "https://example/1" }

/-- A publisher that always fails with a fixed message. -/
def pubFail : Publisher :=
  fun _ _ _ => .error "boom"

/-- A pending post as Add with timezone UTC writes it: scheduled at
2026-02-25 05:00 UTC (instant 05:00 UTC). -/
def pUtcFive : Post :=
  { id := some "20260225_050000_cccccc", text := some "utc post",
    scheduled_at := some "2026-02-25T05:00:00+00:00",
    created_at := some "2026-01-01T00:00:00+00:00",
    status := some "pending", label := some "",
    reply_to := none, quote_tweet_id := none }

/-- A pending post as Add with timezone Asia/Tokyo writes it:
scheduled at 2026-02-25 09:00 Tokyo time (instant 00:00 UTC, five
hours before pUtcFive). -/
def pTokyoNine : Post :=
  { pUtcFive with
    id := some "20260225_090000_dddddd",
    text := some "tokyo post",
    scheduled_at := some "2026-02-25T09:00:00+09:00" }

/-- A pending store holding the two mixed-offset posts. -/
def mixedStore : Dir :=
  [("20260225_050000_cccccc.json", FileContent.record pUtcFive),
   ("20260225_090000_dddddd.json", FileContent.record pTokyoNine)]

/-- The state after a first sample post-due run over sdSample. -/
def firstRunState : DueState :=
  dueResult pubOk nowSample "2026-06-01T00:00:00+00:00" (glob_json sdSample)
    { pending := sdSample, done := [], calls := [], count := 0 }

/-! ### Lemmas about the string order and the stable sort -/

theorem strLeChars_total : ∀ a b : List Char, strLeChars a b = true ∨ strLeChars b a = true := by
  intro a
  induction a with
  | nil => intro b; left; rfl
  | cons x xs ih =>
    intro b
    cases b with
    | nil => right; rfl
    | cons y ys =>
      by_cases h1 : x.toNat < y.toNat
      · left; simp [strLeChars, h1]
      · by_cases h2 : y.toNat < x.toNat
        · right; simp [strLeChars, h2]
        · rcases ih ys with h | h
          · left; simp [strLeChars, h1, h2, h]
          · right; simp [strLeChars, h1, h2, h]

theorem strLeChars_trans :
    ∀ a b c : List Char, strLeChars a b = true → strLeChars b c = true →
      strLeChars a c = true := by
  intro a
  induction a with
  | nil => intro b c _ _; rfl
  | cons x xs ih =>
    intro b c hab hbc
    cases b with
    | nil => simp [strLeChars] at hab
    | cons y ys =>
      cases c with
      | nil => simp [strLeChars] at hbc
      | cons z zs =>
        simp only [strLeChars] at hab hbc ⊢
        by_cases h1 : x.toNat < y.toNat
        · by_cases h2 : y.toNat < z.toNat
          · rw [if_pos (show x.toNat < z.toNat by omega)]
          · by_cases h4 : z.toNat < y.toNat
            · rw [if_neg h2, if_pos h4] at hbc; exact absurd hbc (by simp)
            · rw [if_pos (show x.toNat < z.toNat by omega)]
        · by_cases h3 : y.toNat < x.toNat
          · rw [if_neg h1, if_pos h3] at hab; exact absurd hab (by simp)
          · by_cases h2 : y.toNat < z.toNat
            · rw [if_pos (show x.toNat < z.toNat by omega)]
            · by_cases h4 : z.toNat < y.toNat
              · rw [if_neg h2, if_pos h4] at hbc; exact absurd hbc (by simp)
              · rw [if_neg h1, if_neg h3] at hab
                rw [if_neg h2, if_neg h4] at hbc
                rw [if_neg (show ¬ x.toNat < z.toNat by omega),
                    if_neg (show ¬ z.toNat < x.toNat by omega)]
                exact ih ys zs hab hbc

theorem strLe_total (a b : String) : strLe a b = true ∨ strLe b a = true :=
  strLeChars_total a.data b.data

theorem strLe_trans (a b c : String) (h1 : strLe a b = true) (h2 : strLe b c = true) :
    strLe a c = true :=
  strLeChars_trans a.data b.data c.data h1 h2

theorem mem_stableInsert (le : α → α → Bool) (a : α) (l : List α) (x : α) :
    x ∈ stableInsert le a l ↔ x = a ∨ x ∈ l := by
  induction l with
  | nil => simp [stableInsert]
  | cons b t ih =>
    by_cases h : le b a = true
    · simp [stableInsert, h, ih]
      tauto
    · simp [stableInsert, h]

theorem stableInsert_perm (le : α → α → Bool) (a : α) (l : List α) :
    List.Perm (stableInsert le a l) (a :: l) := by
  induction l with
  | nil => simp [stableInsert]
  | cons b t ih =>
    by_cases h : le b a = true
    · simp only [stableInsert, h, if_true]
      exact (ih.cons b).trans (List.Perm.swap a b t)
    · simp [stableInsert, h]

theorem stableInsert_pairwise (le : α → α → Bool)
    (htot : ∀ a b, le a b = true ∨ le b a = true)
    (htrans : ∀ a b c, le a b = true → le b c = true → le a c = true)
    (a : α) (l : List α) (h : l.Pairwise (fun x y => le x y = true)) :
    (stableInsert le a l).Pairwise (fun x y => le x y = true) := by
  induction l with
  | nil => simp [stableInsert]
  | cons b t ih =>
    rcases List.pairwise_cons.mp h with ⟨hb, ht⟩
    by_cases hba : le b a = true
    · simp only [stableInsert, hba, if_true]
      refine List.pairwise_cons.mpr ⟨?_, ih ht⟩
      intro x hx
      rcases (mem_stableInsert le a t x).mp hx with rfl | hxt
      · exact hba
      · exact hb x hxt
    · have hab : le a b = true := (htot a b).resolve_right (by simpa using hba)
      simp only [stableInsert, hba, if_false]
      refine List.pairwise_cons.mpr ⟨?_, h⟩
      intro x hx
      rcases List.mem_cons.mp hx with rfl | hxt
      · exact hab
      · exact htrans a b x hab (hb x hxt)

theorem foldl_stableInsert_pairwise (le : α → α → Bool)
    (htot : ∀ a b, le a b = true ∨ le b a = true)
    (htrans : ∀ a b c, le a b = true → le b c = true → le a c = true) :
    ∀ (l : List α) (acc : List α), acc.Pairwise (fun x y => le x y = true) →
      (l.foldl (fun acc x => stableInsert le x acc) acc).Pairwise
        (fun x y => le x y = true) := by
  intro l
  induction l with
  | nil => intro acc h; exact h
  | cons x t ih =>
    intro acc h
    exact ih (stableInsert le x acc) (stableInsert_pairwise le htot htrans x acc h)

theorem stableSort_pairwise (le : α → α → Bool)
    (htot : ∀ a b, le a b = true ∨ le b a = true)
    (htrans : ∀ a b c, le a b = true → le b c = true → le a c = true) (l : List α) :
    (stableSort le l).Pairwise (fun x y => le x y = true) :=
  foldl_stableInsert_pairwise le htot htrans l [] List.Pairwise.nil

theorem foldl_stableInsert_perm (le : α → α → Bool) :
    ∀ (l acc : List α),
      List.Perm (l.foldl (fun acc x => stableInsert le x acc) acc) (acc ++ l) := by
  intro l
  induction l with
  | nil => intro acc; simp
  | cons x t ih =>
    intro acc
    have h1 := ih (stableInsert le x acc)
    have h2 : List.Perm (stableInsert le x acc ++ t) ((x :: acc) ++ t) :=
      (stableInsert_perm le x acc).append_right t
    have h3 : List.Perm ((x :: acc) ++ t) (acc ++ x :: t) := List.perm_middle.symm
    exact (h1.trans h2).trans h3

theorem stableSort_perm (le : α → α → Bool) (l : List α) :
    List.Perm (stableSort le l) l := by
  simpa using foldl_stableInsert_perm le l []

theorem mem_stableSort (le : α → α → Bool) (l : List α) (x : α) :
    x ∈ stableSort le l ↔ x ∈ l :=
  (stableSort_perm le l).mem_iff

/-! ### Lemmas about directory operations -/

theorem hasFile_eq_isSome (d : Dir) (n : String) :
    hasFile d n = (getFile d n).isSome := by
  induction d with
  | nil => rfl
  | cons f fs ih =>
    by_cases h : f.1 = n
    · simp [hasFile, getFile, h]
    · simp only [hasFile, getFile, List.any_cons] at ih ⊢
      simp [h, ih, hasFile]

theorem hasFile_of_mem (d : Dir) (x : String × FileContent) (h : x ∈ d) :
    hasFile d x.1 = true := by
  simp only [hasFile, List.any_eq_true]
  exact ⟨x, h, by simp⟩

theorem mem_removeFile (d : Dir) (n : String) (x : String × FileContent) :
    x ∈ removeFile d n ↔ x ∈ d ∧ x.1 ≠ n := by
  simp [removeFile, List.mem_filter]

theorem mem_writeFile (d : Dir) (n : String) (c : FileContent) (x : String × FileContent) :
    x ∈ writeFile d n c ↔ (x ∈ d ∧ x.1 ≠ n) ∨ x = (n, c) := by
  simp [writeFile, mem_removeFile]

theorem getFile_append (l1 l2 : Dir) (n : String) :
    getFile (l1 ++ l2) n =
      match getFile l1 n with
      | some c => some c
      | none => getFile l2 n := by
  induction l1 with
  | nil => simp [getFile]
  | cons f fs ih =>
    by_cases h : f.1 = n <;> simp [getFile, h, ih]

theorem getFile_removeFile_self (d : Dir) (n : String) :
    getFile (removeFile d n) n = none := by
  induction d with
  | nil => rfl
  | cons f fs ih =>
    by_cases h : f.1 = n <;> simp [removeFile, getFile, h] at ih ⊢ <;>
      simpa [removeFile] using ih

theorem getFile_removeFile_ne (d : Dir) (n m : String) (h : m ≠ n) :
    getFile (removeFile d n) m = getFile d m := by
  induction d with
  | nil => rfl
  | cons f fs ih =>
    simp only [removeFile, List.filter_cons] at ih ⊢
    by_cases hf : f.1 = n
    · by_cases hm : f.1 = m
      · exact absurd (hm.symm.trans hf) h
      · simp [hf, hm, getFile, ih, Ne.symm h]
    · by_cases hm : f.1 = m
      · simp [hf, hm, getFile, h]
      · simp [hf, hm, getFile, ih]

theorem getFile_writeFile_self (d : Dir) (n : String) (c : FileContent) :
    getFile (writeFile d n c) n = some c := by
  rw [writeFile, getFile_append, getFile_removeFile_self]
  simp [getFile]

theorem getFile_writeFile_ne (d : Dir) (n : String) (c : FileContent) (m : String)
    (h : m ≠ n) :
    getFile (writeFile d n c) m = getFile d m := by
  rw [writeFile, getFile_append, getFile_removeFile_ne d n m h]
  cases hg : getFile d m with
  | some c2 => rfl
  | none => simp [getFile, Ne.symm h]

theorem getFile_eq_some_of_mem (d : Dir) (n : String) (c : FileContent)
    (hnd : (d.map Prod.fst).Nodup) (h : (n, c) ∈ d) :
    getFile d n = some c := by
  induction d with
  | nil => simp at h
  | cons f fs ih =>
    rw [List.map_cons] at hnd
    have hnd2 := List.nodup_cons.mp hnd
    rcases List.mem_cons.mp h with rfl | hmem
    · simp [getFile]
    · have hne : f.1 ≠ n := by
        intro he
        exact hnd2.1 (by simpa [← he] using List.mem_map_of_mem Prod.fst hmem)
      simp [getFile, hne, ih hnd2.2 hmem]

theorem hasFile_removeFile_self (d : Dir) (n : String) :
    hasFile (removeFile d n) n = false := by
  rw [hasFile_eq_isSome, getFile_removeFile_self]; rfl

theorem hasFile_removeFile_false (d : Dir) (n m : String) (h : hasFile d n = false) :
    hasFile (removeFile d m) n = false := by
  rcases eq_or_ne n m with rfl | hne
  · exact hasFile_removeFile_self d n
  · rw [hasFile_eq_isSome, getFile_removeFile_ne d m n hne, ← hasFile_eq_isSome]
    exact h

theorem hasFile_foldl_remove_false (L : List (String × FileContent)) :
    ∀ (p : Dir) (n : String), hasFile p n = false →
      hasFile (L.foldl (fun p f => removeFile p f.1) p) n = false := by
  induction L with
  | nil => intro p n h; exact h
  | cons f fs ih =>
    intro p n h
    exact ih (removeFile p f.1) n (hasFile_removeFile_false p n f.1 h)

theorem hasFile_foldl_remove_of_name (L : List (String × FileContent)) :
    ∀ (p : Dir) (n : String), n ∈ L.map Prod.fst →
      hasFile (L.foldl (fun p f => removeFile p f.1) p) n = false := by
  induction L with
  | nil => intro p n h; simp at h
  | cons f fs ih =>
    intro p n h
    rw [List.map_cons] at h
    rw [List.foldl_cons]
    rcases List.mem_cons.mp h with rfl | hmem
    · exact hasFile_foldl_remove_false fs (removeFile p f.1) f.1
        (hasFile_removeFile_self p f.1)
    · exact ih (removeFile p f.1) n hmem

theorem getFile_foldl_remove_not_name (L : List (String × FileContent)) :
    ∀ (p : Dir) (n : String), n ∉ L.map Prod.fst →
      getFile (L.foldl (fun p f => removeFile p f.1) p) n = getFile p n := by
  induction L with
  | nil => intro p n _; rfl
  | cons f fs ih =>
    intro p n h
    have h1 : n ∉ fs.map Prod.fst := fun hc => h (by simp [hc])
    have h2 : n ≠ f.1 := fun hc => h (by simp [hc])
    rw [List.foldl_cons, ih (removeFile p f.1) n h1, getFile_removeFile_ne p f.1 n h2]

theorem mem_foldl_remove_subset (L : List (String × FileContent)) :
    ∀ (p : Dir) (x : String × FileContent),
      x ∈ L.foldl (fun p f => removeFile p f.1) p → x ∈ p := by
  induction L with
  | nil => intro p x h; exact h
  | cons f fs ih =>
    intro p x h
    exact ((mem_removeFile p f.1 x).mp (ih (removeFile p f.1) x h)).1

theorem getFile_foldl_write_not_name (L : List (String × FileContent))
    (g : String × FileContent → FileContent) :
    ∀ (d0 : Dir) (n : String), n ∉ L.map Prod.fst →
      getFile (L.foldl (fun d x => writeFile d x.1 (g x)) d0) n = getFile d0 n := by
  induction L with
  | nil => intro d0 n _; rfl
  | cons f fs ih =>
    intro d0 n h
    have h1 : n ∉ fs.map Prod.fst := fun hc => h (by simp [hc])
    have h2 : n ≠ f.1 := fun hc => h (by simp [hc])
    rw [List.foldl_cons, ih (writeFile d0 f.1 (g f)) n h1,
       getFile_writeFile_ne d0 f.1 (g f) n h2]

theorem getFile_foldl_write_of_mem (L : List (String × FileContent))
    (g : String × FileContent → FileContent) :
    ∀ (d0 : Dir) (f : String × FileContent), (L.map Prod.fst).Nodup → f ∈ L →
      getFile (L.foldl (fun d x => writeFile d x.1 (g x)) d0) f.1 = some (g f) := by
  induction L with
  | nil => intro d0 f _ h; simp at h
  | cons h0 t ih =>
    intro d0 f hnd hf
    rw [List.map_cons] at hnd
    have hnd2 := List.nodup_cons.mp hnd
    rw [List.foldl_cons]
    rcases List.mem_cons.mp hf with rfl | hmem
    · rw [getFile_foldl_write_not_name t g (writeFile d0 f.1 (g f)) f.1 hnd2.1]
      exact getFile_writeFile_self d0 f.1 (g f)
    · exact ih (writeFile d0 h0.1 (g h0)) f hnd2.2 hmem

theorem hasFile_foldl_write (L : List (String × FileContent))
    (g : String × FileContent → FileContent) :
    ∀ (d0 : Dir) (n : String),
      hasFile (L.foldl (fun d x => writeFile d x.1 (g x)) d0) n = true →
      hasFile d0 n = true ∨ n ∈ L.map Prod.fst := by
  induction L with
  | nil => intro d0 n h; exact Or.inl h
  | cons f fs ih =>
    intro d0 n h
    rw [List.foldl_cons] at h
    rcases ih (writeFile d0 f.1 (g f)) n h with h1 | h1
    · rcases eq_or_ne n f.1 with rfl | hne
      · exact Or.inr (by simp)
      · rw [hasFile_eq_isSome, getFile_writeFile_ne d0 f.1 (g f) n hne,
           ← hasFile_eq_isSome] at h1
        exact Or.inl h1
    · exact Or.inr (by simp [h1])

theorem mem_glob_json (d : Dir) (x : String × FileContent) :
    x ∈ glob_json d ↔ x ∈ d ∧ globFilter x.1 = true := by
  rw [glob_json, mem_stableSort]
  simp [List.mem_filter]

theorem glob_json_keys_nodup (d : Dir) (hnd : (d.map Prod.fst).Nodup) :
    ((glob_json d).map Prod.fst).Nodup := by
  have hperm : List.Perm (glob_json d) (d.filter (fun f => globFilter f.1)) :=
    stableSort_perm _ _
  have h2 : ((d.filter (fun f => globFilter f.1)).map Prod.fst).Nodup :=
    (hnd.sublist (List.Sublist.map Prod.fst (List.filter_sublist d)))
  exact (hperm.map Prod.fst).nodup_iff.mpr h2

/-! ### Lemmas about the loading loops -/

theorem listLoad_ok (files : List (String × FileContent)) :
    ∀ res, listLoad files = .ok res → res = pendingOf files := by
  induction files with
  | nil =>
    intro res h
    simp only [listLoad] at h
    cases h
    rfl
  | cons f fs ih =>
    obtain ⟨n, c⟩ := f
    intro res h
    cases c with
    | malformed => simp [listLoad] at h
    | record p =>
      simp only [listLoad] at h
      by_cases hp : (p.status == some "pending") = true
      · rw [if_pos hp] at h
        cases hload : listLoad fs with
        | ok ps =>
          rw [hload] at h
          cases h
          have hps := beq_iff_eq.mp hp
          simp [pendingOf, List.filterMap_cons, hps, ih ps hload]
        | error e => rw [hload] at h; cases h
      · rw [if_neg hp] at h
        have hps : p.status ≠ some "pending" := by simpa using hp
        simp [pendingOf, List.filterMap_cons, hps, ih res h]

theorem listLoad_error_of_malformed (files : List (String × FileContent)) (n : String)
    (h : (n, FileContent.malformed) ∈ files) : listLoad files = .error () := by
  induction files with
  | nil => simp at h
  | cons f fs ih =>
    obtain ⟨m, c⟩ := f
    rcases List.mem_cons.mp h with he | hmem
    · cases he
      simp [listLoad]
    · cases c with
      | malformed => simp [listLoad]
      | record p =>
        simp only [listLoad]
        rw [ih hmem]
        by_cases hp : (p.status == some "pending") = true <;> simp [hp]

theorem historyLoad_ok (files : List (String × FileContent)) :
    ∀ res, historyLoad files = .ok res → res = recordsOf files := by
  induction files with
  | nil =>
    intro res h
    simp only [historyLoad] at h
    cases h
    rfl
  | cons f fs ih =>
    obtain ⟨n, c⟩ := f
    intro res h
    cases c with
    | malformed => simp [historyLoad] at h
    | record p =>
      simp only [historyLoad] at h
      cases hload : historyLoad fs with
      | ok ps =>
        rw [hload] at h
        cases h
        simp [recordsOf, List.filterMap_cons, ih ps hload]
      | error e => rw [hload] at h; cases h

theorem historyLoad_error_of_malformed (files : List (String × FileContent)) (n : String)
    (h : (n, FileContent.malformed) ∈ files) : historyLoad files = .error () := by
  induction files with
  | nil => simp at h
  | cons f fs ih =>
    obtain ⟨m, c⟩ := f
    rcases List.mem_cons.mp h with he | hmem
    · cases he
      simp [historyLoad]
    · cases c with
      | malformed => simp [historyLoad]
      | record p =>
        simp only [historyLoad]
        rw [ih hmem]

theorem pendingOf_status (files : List (String × FileContent)) (p : Post)
    (h : p ∈ pendingOf files) : p.status = some "pending" := by
  simp only [pendingOf, List.mem_filterMap] at h
  obtain ⟨f, _, hf⟩ := h
  obtain ⟨nm, c⟩ := f
  cases c with
  | malformed => simp at hf
  | record q =>
    by_cases hq : (q.status == some "pending") = true
    · have hqp : some q = some p := by simpa [hq] using hf
      cases hqp
      exact beq_iff_eq.mp hq
    · simp [hq] at hf

/-! ### Lemmas about the post-due pass -/

theorem eq_of_mem_nodup_keys (L : List (String × FileContent)) (n : String)
    (c1 c2 : FileContent) (hnd : (L.map Prod.fst).Nodup)
    (h1 : (n, c1) ∈ L) (h2 : (n, c2) ∈ L) : c1 = c2 := by
  have e1 := getFile_eq_some_of_mem L n c1 hnd h1
  have e2 := getFile_eq_some_of_mem L n c2 hnd h2
  rw [e1] at e2
  cases e2
  rfl

theorem dueStep_skip (pub : Publisher) (now : Int) (nowIso : String) (st : DueState)
    (f : String × FileContent) (hwf : wfFile f = true)
    (hdue : isDueFile now f = false) :
    dueStep pub now nowIso st f = .ok st := by
  obtain ⟨n, c⟩ := f
  cases c with
  | malformed => simp [wfFile] at hwf
  | record d =>
    by_cases hs : (d.status == some "pending") = true
    · cases hsa : d.scheduled_at with
      | none => simp [wfFile, hs, hsa] at hwf
      | some s =>
        cases hfi : fromisoformat s with
        | none => simp [wfFile, hs, hsa, hfi] at hwf
        | some t =>
          have hlt : now < instant (normalizeUTC t) := by
            simpa [isDueFile, hs, hsa, hfi] using hdue
          simp [dueStep, hs, hsa, hfi, hlt]
    · simp [dueStep, hs]

theorem dueFold_skip (pub : Publisher) (now : Int) (nowIso : String)
    (files : List (String × FileContent)) :
    ∀ st : DueState,
      (∀ f ∈ files, wfFile f = true ∧ isDueFile now f = false) →
      dueFold pub now nowIso st files = .ok st := by
  induction files with
  | nil => intro st _; rfl
  | cons f fs ih =>
    intro st h
    have h0 := h f (by simp)
    have hstep := dueStep_skip pub now nowIso st f h0.1 h0.2
    simp only [dueFold]
    rw [hstep]
    exact ih st (fun g hg => h g (by simp [hg]))

theorem dueFold_ok (pub : Publisher) (now : Int) (nowIso : String)
    (files : List (String × FileContent)) :
    ∀ st : DueState, (∀ f ∈ files, wfFile f = true) →
      dueFold pub now nowIso st files = .ok (dueResult pub now nowIso files st) := by
  induction files with
  | nil =>
    intro st _
    simp [dueFold, dueResult]
  | cons f fs ih =>
    intro st hwf
    have hwf0 : wfFile f = true := hwf f (by simp)
    have hwfs : ∀ g ∈ fs, wfFile g = true := fun g hg => hwf g (by simp [hg])
    obtain ⟨n, c⟩ := f
    cases c with
    | malformed => simp [wfFile] at hwf0
    | record d =>
      by_cases hs : (d.status == some "pending") = true
      · cases hsa : d.scheduled_at with
        | none => simp [wfFile, hs, hsa] at hwf0
        | some s =>
          cases hfi : fromisoformat s with
          | none => simp [wfFile, hs, hsa, hfi] at hwf0
          | some t =>
            by_cases hlt : now < instant (normalizeUTC t)
            · have hstep : dueStep pub now nowIso st (n, .record d) = .ok st := by
                simp [dueStep, hs, hsa, hfi, hlt]
              have hdue : isDueFile now (n, FileContent.record d) = false := by
                simp [isDueFile, hs, hsa, hfi, hlt]
              simp only [dueFold]
              rw [hstep]
              show dueFold pub now nowIso st fs = _
              rw [ih st hwfs]
              refine congrArg Except.ok ?_
              simp [dueResult, List.filter_cons, hdue]
            · have hdue : isDueFile now (n, FileContent.record d) = true := by
                simp [isDueFile, hs, hsa, hfi, hlt]
              have hstep : dueStep pub now nowIso st (n, .record d) =
                  .ok { pending := removeFile st.pending n,
                        done := writeFile st.done n
                          (.record (outcomeRecord pub nowIso d)),
                        calls := st.calls ++ [(d.text, d.reply_to, d.quote_tweet_id)],
                        count := st.count + 1 } := by
                simp [dueStep, hs, hsa, hfi, hlt]
              simp only [dueFold]
              rw [hstep]
              show dueFold pub now nowIso
                { pending := removeFile st.pending n,
                  done := writeFile st.done n
                    (.record (outcomeRecord pub nowIso d)),
                  calls := st.calls ++ [(d.text, d.reply_to, d.quote_tweet_id)],
                  count := st.count + 1 } fs = _
              rw [ih _ hwfs]
              refine congrArg Except.ok ?_
              simp only [dueResult, List.filter_cons, hdue, if_true, List.foldl_cons,
                List.map_cons, List.length_cons, DueState.mk.injEq, recOf, callOf]
              refine ⟨trivial, trivial, by simp, by omega⟩
      · have hstep : dueStep pub now nowIso st (n, .record d) = .ok st := by
          simp [dueStep, hs]
        have hdue : isDueFile now (n, FileContent.record d) = false := by
          simp [isDueFile, hs]
        simp only [dueFold]
        rw [hstep]
        show dueFold pub now nowIso st fs = _
        rw [ih st hwfs]
        refine congrArg Except.ok ?_
        simp [dueResult, List.filter_cons, hdue]

theorem cmd_post_due_ok (pub : Publisher) (now : Int) (nowIso : String)
    (sd : Dir) (done0 : Dir)
    (hwf : ∀ f ∈ glob_json sd, wfFile f = true) :
    cmd_post_due pub now nowIso (some sd) done0 =
      .ok (dueResult pub now nowIso (glob_json sd)
        { pending := sd, done := done0, calls := [], count := 0 }) := by
  simp only [cmd_post_due]
  exact dueFold_ok pub now nowIso (glob_json sd) _ hwf

theorem listLoad_isOk_of_no_malformed (files : List (String × FileContent))
    (h : ∀ f ∈ files, f.2 ≠ FileContent.malformed) :
    ∃ res, listLoad files = .ok res := by
  induction files with
  | nil => exact ⟨[], rfl⟩
  | cons f fs ih =>
    obtain ⟨res, hres⟩ := ih (fun g hg => h g (by simp [hg]))
    obtain ⟨n, c⟩ := f
    cases c with
    | malformed => exact absurd rfl (h (n, .malformed) (by simp))
    | record p =>
      by_cases hp : (p.status == some "pending") = true
      · exact ⟨p :: res, by simp [listLoad, hp, hres]⟩
      · exact ⟨res, by simp [listLoad, hp, hres]⟩

theorem hasFile_writeFile_true (d : Dir) (n m : String) (c : FileContent)
    (h : hasFile d n = true) : hasFile (writeFile d m c) n = true := by
  rcases eq_or_ne n m with rfl | hne
  · rw [hasFile_eq_isSome, getFile_writeFile_self]; rfl
  · rw [hasFile_eq_isSome, getFile_writeFile_ne d m c n hne, ← hasFile_eq_isSome]
    exact h

theorem hasFile_foldl_write_true (L : List (String × FileContent))
    (g : String × FileContent → FileContent) :
    ∀ (d0 : Dir) (n : String), hasFile d0 n = true →
      hasFile (L.foldl (fun d x => writeFile d x.1 (g x)) d0) n = true := by
  induction L with
  | nil => intro d0 n h; exact h
  | cons f fs ih =>
    intro d0 n h
    rw [List.foldl_cons]
    exact ih _ n (hasFile_writeFile_true d0 n f.1 (g f) h)

theorem hasFile_foldl_write_of_name (L : List (String × FileContent))
    (g : String × FileContent → FileContent) :
    ∀ (d0 : Dir) (n : String), n ∈ L.map Prod.fst →
      hasFile (L.foldl (fun d x => writeFile d x.1 (g x)) d0) n = true := by
  induction L with
  | nil => intro d0 n h; simp at h
  | cons f fs ih =>
    intro d0 n h
    rw [List.map_cons] at h
    rw [List.foldl_cons]
    rcases List.mem_cons.mp h with rfl | hmem
    · exact hasFile_foldl_write_true fs g _ f.1
        (by rw [hasFile_eq_isSome, getFile_writeFile_self]; rfl)
    · exact ih (writeFile d0 f.1 (g f)) n hmem

theorem dirsDisjoint_iff (a b : Dir) :
    dirsDisjoint a b = true ↔ ∀ x ∈ a, hasFile b x.1 = false := by
  simp [dirsDisjoint]

/-! ### Claim theorems -/

/-- C6: Cancel(id) removes the pending record for id; for every id with
no corresponding file named id.json in the pending store — including
ids of posts already archived in the done directory, which cmd_cancel
never reads or writes — it fails with NotFound (error message and
non-zero exit) and returns the pending store unchanged. -/
theorem cancel_removes_or_notfound :
    (∀ (pending : Dir) (postId : String),
       hasFile pending (postId ++ ".json") = true →
       cmd_cancel pending postId = .ok (removeFile pending (postId ++ ".json"))) ∧
    (∀ (pending : Dir) (postId : String),
       hasFile pending (postId ++ ".json") = false →
       cmd_cancel pending postId = .error pending) ∧
    (∀ (pending done0 : Dir) (postId : String),
       hasFile done0 (postId ++ ".json") = true →
       hasFile pending (postId ++ ".json") = false →
       cmd_cancel pending postId = .error pending) := by
  refine ⟨?_, ?_, ?_⟩
  · intro pending postId h; simp [cmd_cancel, h]
  · intro pending postId h; simp [cmd_cancel, h]
  · intro pending done0 postId _ h; simp [cmd_cancel, h]

/-- C6 witness: a present record is removed; a missing id and an id
archived in done both yield NotFound with the stores unchanged. -/
theorem cancel_removes_or_notfound_witness :
    cmd_cancel [("a.json", FileContent.record {})] "a" = .ok [] ∧
    cmd_cancel [] "b" = .error [] ∧
    cmd_cancel [("x.json", FileContent.record {})] "archived" =
      .error [("x.json", FileContent.record {})] := by
  refine ⟨?_, ?_, ?_⟩
  · rw [cancel_removes_or_notfound.1 [("a.json", FileContent.record {})] "a" (by rfl)]
    rfl
  · exact cancel_removes_or_notfound.2.1 [] "b" (by rfl)
  · exact cancel_removes_or_notfound.2.2 [("x.json", FileContent.record {})]
      [("archived.json", FileContent.record {})] "archived" (by rfl) (by rfl)

/-- C9: cancel raises NotFound exactly when no file named id.json is in
the pending directory, and when such a file exists it is deleted
without its status field (or any content) being inspected. -/
theorem cancel_checks_only_existence :
    (∀ (pending : Dir) (postId : String),
       cmd_cancel pending postId = .error pending ↔
         hasFile pending (postId ++ ".json") = false) ∧
    (∀ (pending : Dir) (postId : String) (c : FileContent),
       getFile pending (postId ++ ".json") = some c →
       cmd_cancel pending postId = .ok (removeFile pending (postId ++ ".json")) ∧
       hasFile (removeFile pending (postId ++ ".json")) (postId ++ ".json") = false) := by
  constructor
  · intro pending postId
    by_cases hh : hasFile pending (postId ++ ".json") = true
    · simp [cmd_cancel, hh]
    · simp [cmd_cancel, hh]
  · intro pending postId c h
    have hh : hasFile pending (postId ++ ".json") = true := by
      rw [hasFile_eq_isSome, h]; rfl
    exact ⟨by simp [cmd_cancel, hh], hasFile_removeFile_self pending (postId ++ ".json")⟩

/-- C9 witness: cancel deletes a record whose status is posted (content
is not inspected), and the NotFound condition is exactly file absence. -/
theorem cancel_checks_only_existence_witness :
    (cmd_cancel [("p.json", FileContent.record { status := some "posted" })] "q" =
        .error [("p.json", FileContent.record { status := some "posted" })] ↔
      hasFile [("p.json", FileContent.record { status := some "posted" })]
        ("q" ++ ".json") = false) ∧
    (cmd_cancel [("p.json", FileContent.record { status := some "posted" })] "p" =
        .ok (removeFile [("p.json", FileContent.record { status := some "posted" })]
          ("p" ++ ".json")) ∧
      hasFile (removeFile [("p.json", FileContent.record { status := some "posted" })]
        ("p" ++ ".json")) ("p" ++ ".json") = false) :=
  ⟨cancel_checks_only_existence.1 _ "q",
   cancel_checks_only_existence.2 _ "p" (FileContent.record { status := some "posted" })
     (by rfl)⟩

/-- C5 counterexample: Add with empty text and a valid datetime is not
rejected: the call succeeds and the post file is written into the
store with empty text; cmd_add performs no empty-text validation. -/
theorem add_empty_text_accepted :
    (cmd_add "" "2026-02-25 09:00" none none none (some 32400) hexDigestSample 0
        "2026-01-01T00:00:00+09:00" []).map
      (fun r => (hasFile r.dir "20260225_090000_012345.json", r.post.text)) =
      .ok (true, some "") := by
  rfl

/-- C5 amended: Add with an unparseable datetime (or an unknown
timezone name, which raises before parsing) is a validation error: the
operation aborts with a non-zero exit and no post file is written, the
store coming back unchanged.  Empty text is accepted, not validated. -/
theorem add_bad_datetime_rejected (text dt : String) (r q l : Option String)
    (tz : Option Int) (digest : String) (nowI : Int) (nowIso : String) (dir : Dir)
    (hparse : strptime_add (replaceT dt) = none) :
    cmd_add text dt r q l tz digest nowI nowIso dir = .error dir := by
  cases tz with
  | none => rfl
  | some off => simp [cmd_add, hparse]

/-- C5 witness for the amended claim, at the unparseable input
not-a-date. -/
theorem add_bad_datetime_rejected_witness :
    cmd_add "hello" "not-a-date" none none none (some 32400) hexDigestSample 0
      "x" [] = .error [] :=
  add_bad_datetime_rejected "hello" "not-a-date" none none none (some 32400)
    hexDigestSample 0 "x" [] (by rfl)

/-- C8 amended: for every successful Add the generated id is the
strftime %Y%m%d_%H%M%S rendering of the scheduled wall-clock time
(month, day and time zero-padded to two digits, the year a plain
decimal, so only four-digit years yield the YYYYMMDD_HHMMSS shape)
followed by an underscore and the first 6 characters of the md5
hexdigest, which are 6 hex digits; the Section 8 scenario with year
2026 matches the full 20260225_090000_<6 hex> pattern (witness). -/
theorem add_id_format (text dt : String) (r q l : Option String) (off : Int)
    (digest : String) (nowI : Int) (nowIso : String) (dir : Dir) (res : AddResult)
    (hok : cmd_add text dt r q l (some off) digest nowI nowIso dir = .ok res)
    (hlen : digest.data.length = 32)
    (hhex : ∀ c ∈ digest.data, isHexDigit c = true) :
    ∃ naive, strptime_add (replaceT dt) = some naive ∧
      res.post.id = some (compactTs { naive with offset := some off } ++ "_"
        ++ String.mk (digest.data.take 6)) ∧
      (digest.data.take 6).length = 6 ∧
      (∀ c ∈ digest.data.take 6, isHexDigit c = true) := by
  cases hp : strptime_add (replaceT dt) with
  | none => simp [cmd_add, hp] at hok
  | some naive =>
    refine ⟨naive, rfl, ?_, ?_, ?_⟩
    · simp only [cmd_add, hp] at hok
      cases hok
      rfl
    · rw [List.length_take]; omega
    · intro c hc; exact hhex c (List.take_subset 6 digest.data hc)

/-- C8 witness: the Section 8 scenario produces the id
20260225_090000_012345, matching 20260225_090000 followed by 6 hex
digits of the digest. -/
theorem add_id_format_witness :
    addScenarioRes.post.id = some "20260225_090000_012345" ∧
    specIdPattern "20260225_090000_012345" = true ∧
    (∃ naive, strptime_add (replaceT "2026-02-25 09:00") = some naive ∧
      addScenarioRes.post.id = some (compactTs { naive with offset := some (32400 : Int) }
        ++ "_" ++ String.mk (hexDigestSample.data.take 6)) ∧
      (hexDigestSample.data.take 6).length = 6 ∧
      (∀ c ∈ hexDigestSample.data.take 6, isHexDigit c = true)) :=
  ⟨rfl, by decide,
   add_id_format "Hello" "2026-02-25 09:00" none none none 32400 hexDigestSample 0
     "2026-01-01T00:00:00+09:00" [] addScenarioRes (by rfl) (by rfl) (by decide)⟩

/-- C8 counterexample: Add accepts the four-digit year 0005, but the
platform strftime renders the year without zero padding, so the
generated id 50101_000000_012345 does not have the claimed
YYYYMMDD_HHMMSS underscore hex shape. -/
theorem add_id_small_year_breaks_pattern :
    (cmd_add "x" "0005-01-01 00:00" none none none (some 0) hexDigestSample 0
        "t" []).map (fun r => (r.post.id, r.post.id.map specIdPattern)) =
      .ok (some "50101_000000_012345", some false) := by
  rfl

/-- C4 amended: List returns exactly the pending-status records among
the globbed files (never a record with another status), in
non-decreasing order of the raw scheduled_at string — the sort key of
line 130, a code-point comparison of the stored ISO strings, which
coincides with chronological order only when the stored offsets make
string order agree with instant order — and a non-existent store
directory yields the empty result rather than an error. -/
theorem list_pending_sorted :
    cmd_list none = .ok [] ∧
    ∀ (d : Dir) (res : List Post), cmd_list (some d) = .ok res →
      (∀ p ∈ res, p.status = some "pending") ∧
      res.Pairwise (fun a b =>
        strLe (a.scheduled_at.getD "") (b.scheduled_at.getD "") = true) ∧
      List.Perm res (pendingOf (glob_json d)) := by
  constructor
  · rfl
  · intro d res h
    simp only [cmd_list] at h
    split at h
    next e heq => simp at h
    next posts heq =>
      have hposts := listLoad_ok _ posts heq
      by_cases hemp : posts.isEmpty = true
      · rw [if_pos hemp] at h
        cases h
        have hnil : posts = [] := by simpa using hemp
        refine ⟨by simp, by simp, ?_⟩
        rw [← hposts, hnil]
      · rw [if_neg hemp] at h
        by_cases hall : posts.all (fun p => p.scheduled_at.isSome) = true
        · rw [if_pos hall] at h
          cases h
          refine ⟨?_, ?_, ?_⟩
          · intro p hp
            have hpm : p ∈ posts := (mem_stableSort _ posts p).mp hp
            rw [hposts] at hpm
            exact pendingOf_status _ p hpm
          · exact stableSort_pairwise
              (fun a b => strLe (a.scheduled_at.getD "") (b.scheduled_at.getD ""))
              (fun a b => strLe_total (a.scheduled_at.getD "") (b.scheduled_at.getD ""))
              (fun a b c hab hbc => strLe_trans (a.scheduled_at.getD "")
                (b.scheduled_at.getD "") (c.scheduled_at.getD "") hab hbc) posts
          · rw [← hposts]
            exact stableSort_perm _ posts
        · rw [if_neg hall] at h; cases h

/-- C4 witness on the sample store: both records are pending so List
keeps both, reordered ascending by scheduled_at. -/
theorem list_pending_sorted_witness :
    (∀ p ∈ [pDue, pFuture], p.status = some "pending") ∧
    List.Pairwise (fun a b =>
      strLe (a.scheduled_at.getD "") (b.scheduled_at.getD "") = true) [pDue, pFuture] ∧
    List.Perm [pDue, pFuture] (pendingOf (glob_json sdSample)) :=
  list_pending_sorted.2 sdSample [pDue, pFuture] (by rfl)

/-- C4 counterexample: on a reachable mixed-offset store List is not
ascending by the scheduled_at timestamp.  The UTC post is scheduled at
05:00 UTC and the Tokyo post at 09:00+09:00 = 00:00 UTC, five hours
earlier; the raw-string sort puts the UTC post first all the same, so
the returned sequence starts with the chronologically later post. -/
theorem list_mixed_offset_not_chronological :
    cmd_list (some mixedStore) = .ok [pUtcFive, pTokyoNine] ∧
    pUtcFive.scheduled_at = some "2026-02-25T05:00:00+00:00" ∧
    pTokyoNine.scheduled_at = some "2026-02-25T09:00:00+09:00" ∧
    fromisoformat "2026-02-25T05:00:00+00:00" =
      some { year := 2026, month := 2, day := 25, hour := 5, offset := some 0 } ∧
    fromisoformat "2026-02-25T09:00:00+09:00" =
      some { year := 2026, month := 2, day := 25, hour := 9, offset := some 32400 } ∧
    instant { year := 2026, month := 2, day := 25, hour := 9, offset := some 32400 } <
      instant { year := 2026, month := 2, day := 25, hour := 5, offset := some 0 } :=
  ⟨rfl, rfl, rfl, rfl, rfl, by decide⟩

/-- C10 counterexample: a *.json file (no reserved prefix) whose
content is valid JSON but not a post record with the expected keys is
not an error for List: the status filter silently skips it and the
command succeeds with an empty listing. -/
theorem list_junk_record_skipped :
    cmd_list (some [("junk.json", FileContent.record {})]) = .ok [] := by
  rfl

/-- C10 amended: a globbed *.json file (no reserved prefix) whose
content is not valid JSON makes List and History fail as a whole at
load time instead of being skipped, and only the prefix and extension
filters protect the load stage: when every malformed file is excluded
by them the load succeeds.  A valid-JSON file lacking the expected
keys, however, is skipped by cmd_list when its status is not pending
(see the counterexample), not rejected. -/
theorem malformed_json_aborts_listing :
    (∀ (d : Dir) (n : String), (n, FileContent.malformed) ∈ glob_json d →
       cmd_list (some d) = .error () ∧ cmd_history (some d) = .error ()) ∧
    (∀ d : Dir,
       (∀ f ∈ d, f.2 = FileContent.malformed →
         strStartsWith f.1 "._" = true ∨ strEndsWith f.1 ".json" = false) →
       ∃ posts, listLoad (glob_json d) = .ok posts) := by
  constructor
  · intro d n hmem
    constructor
    · simp [cmd_list, listLoad_error_of_malformed (glob_json d) n hmem]
    · simp [cmd_history, historyLoad_error_of_malformed (glob_json d) n hmem]
  · intro d hd
    apply listLoad_isOk_of_no_malformed
    intro f hf hmal
    have hg := (mem_glob_json d f).mp hf
    rcases hd f hg.1 hmal with hp | he
    · have := hg.2
      simp [globFilter, hp] at this
    · have := hg.2
      simp [globFilter, he] at this

/-- C10 witness for the amended claim: a single undecodable bad.json
aborts both List and History, while a malformed file carrying the
reserved prefix is filtered out and the load succeeds. -/
theorem malformed_json_aborts_listing_witness :
    (cmd_list (some [("bad.json", FileContent.malformed)]) = .error () ∧
     cmd_history (some [("bad.json", FileContent.malformed)]) = .error ()) ∧
    (∃ posts, listLoad (glob_json [("._bad.json", FileContent.malformed)]) = .ok posts) :=
  ⟨malformed_json_aborts_listing.1 [("bad.json", FileContent.malformed)] "bad.json"
     (by decide),
   malformed_json_aborts_listing.2 [("._bad.json", FileContent.malformed)] (by decide)⟩

/-- C1: one post-due run over a pending store whose globbed files are
well formed succeeds, invokes the publish operation exactly once per
due post — a pending record whose scheduled_at, normalized to UTC when
it carries no offset, is at or before now — with that post's text,
reply_to and quote_tweet_id, in glob order; and every pending record
scheduled strictly after now is left untouched in the pending store. -/
theorem post_due_processes_due_posts (pub : Publisher) (now : Int) (nowIso : String)
    (sd done0 : Dir)
    (hwf : ∀ f ∈ glob_json sd, wfFile f = true)
    (hnd : (sd.map Prod.fst).Nodup) :
    ∃ st : DueState, cmd_post_due pub now nowIso (some sd) done0 = .ok st ∧
      st.calls = ((glob_json sd).filter (isDueFile now)).map callOf ∧
      st.count = ((glob_json sd).filter (isDueFile now)).length ∧
      ∀ (n : String) (d : Post), (n, FileContent.record d) ∈ glob_json sd →
        d.status = some "pending" →
        (∀ s t, d.scheduled_at = some s → fromisoformat s = some t →
          now < instant (normalizeUTC t)) →
        getFile st.pending n = some (FileContent.record d) := by
  refine ⟨_, cmd_post_due_ok pub now nowIso sd done0 hwf,
    by simp [dueResult], by simp [dueResult], ?_⟩
  intro n d hmem hstat hfut
  have hwfd := hwf _ hmem
  have hdue : isDueFile now (n, FileContent.record d) = false := by
    cases hsa : d.scheduled_at with
    | none => simp [wfFile, hstat, hsa] at hwfd
    | some s =>
      cases hfi : fromisoformat s with
      | none => simp [wfFile, hstat, hsa, hfi] at hwfd
      | some t => simp [isDueFile, hstat, hsa, hfi, hfut s t hsa hfi]
  have hglobnd := glob_json_keys_nodup sd hnd
  have hnname : n ∉ ((glob_json sd).filter (isDueFile now)).map Prod.fst := by
    intro hc
    rw [List.mem_map] at hc
    obtain ⟨f, hfmem, hf1⟩ := hc
    have hfin : f ∈ glob_json sd := (List.mem_filter.mp hfmem).1
    have hfdue : isDueFile now f = true := (List.mem_filter.mp hfmem).2
    obtain ⟨m, c⟩ := f
    cases hf1
    have hcrec : c = FileContent.record d :=
      eq_of_mem_nodup_keys _ _ _ _ hglobnd hfin hmem
    rw [hcrec] at hfdue
    rw [hfdue] at hdue
    cases hdue
  show getFile
    (dueResult pub now nowIso (glob_json sd)
      { pending := sd, done := done0, calls := [], count := 0 }).pending n =
    some (FileContent.record d)
  simp only [dueResult]
  rw [getFile_foldl_remove_not_name _ _ n hnname]
  exact getFile_eq_some_of_mem sd n _ hnd ((mem_glob_json sd _).mp hmem).1

/-- C1 witness on the sample store: the due post is published with its
fields, the future post stays pending and untouched. -/
theorem post_due_processes_due_posts_witness :
    ∃ st : DueState,
      cmd_post_due pubOk nowSample "2026-06-01T00:00:00+00:00" (some sdSample) [] =
        .ok st ∧
      st.calls = ((glob_json sdSample).filter (isDueFile nowSample)).map callOf ∧
      st.count = ((glob_json sdSample).filter (isDueFile nowSample)).length ∧
      ∀ (n : String) (d : Post), (n, FileContent.record d) ∈ glob_json sdSample →
        d.status = some "pending" →
        (∀ s t, d.scheduled_at = some s → fromisoformat s = some t →
          nowSample < instant (normalizeUTC t)) →
        getFile st.pending n = some (FileContent.record d) :=
  post_due_processes_due_posts pubOk nowSample "2026-06-01T00:00:00+00:00" sdSample []
    (by decide) (by decide)

/-- C2: when the publish call for a due post raises an error (whose
message, per the Publisher contract, is non-empty), the run still
succeeds: that post's record is archived with status failed, posted_at
set to now and the non-empty message in its error field, the record is
removed from the pending store, and the batch is not aborted — the
processed count still covers every due post. -/
theorem post_due_failure_archived (pub : Publisher) (now : Int) (nowIso : String)
    (sd done0 : Dir) (n : String) (d : Post) (e : String)
    (hwf : ∀ f ∈ glob_json sd, wfFile f = true)
    (hnd : (sd.map Prod.fst).Nodup)
    (hmem : (n, FileContent.record d) ∈ glob_json sd)
    (hdue : isDueFile now (n, FileContent.record d) = true)
    (hfail : pub d.text d.reply_to d.quote_tweet_id = .error e)
    (hne : e ≠ "") :
    ∃ st : DueState, cmd_post_due pub now nowIso (some sd) done0 = .ok st ∧
      getFile st.done n = some (FileContent.record
        { d with
          status := some "failed", error := some e, posted_at := some nowIso }) ∧
      hasFile st.pending n = false ∧
      ({ d with
         status := some "failed", error := some e, posted_at := some nowIso } :
           Post).error = some e ∧ e ≠ "" ∧
      st.count = ((glob_json sd).filter (isDueFile now)).length := by
  have hD : (n, FileContent.record d) ∈ (glob_json sd).filter (isDueFile now) :=
    List.mem_filter.mpr ⟨hmem, hdue⟩
  have hDnd : (((glob_json sd).filter (isDueFile now)).map Prod.fst).Nodup :=
    (glob_json_keys_nodup sd hnd).sublist
      (List.Sublist.map Prod.fst (List.filter_sublist _))
  have hname : n ∈ ((glob_json sd).filter (isDueFile now)).map Prod.fst :=
    List.mem_map_of_mem Prod.fst hD
  refine ⟨_, cmd_post_due_ok pub now nowIso sd done0 hwf, ?_, ?_, rfl, hne,
    by simp [dueResult]⟩
  · have hget2 : getFile (((glob_json sd).filter (isDueFile now)).foldl
        (fun dd f => writeFile dd f.1
          (FileContent.record (outcomeRecord pub nowIso (recOf f)))) done0) n =
        some (FileContent.record
          (outcomeRecord pub nowIso (recOf (n, FileContent.record d)))) :=
      getFile_foldl_write_of_mem ((glob_json sd).filter (isDueFile now))
        (fun f => FileContent.record (outcomeRecord pub nowIso (recOf f))) done0
        (n, FileContent.record d) hDnd hD
    show getFile (((glob_json sd).filter (isDueFile now)).foldl
        (fun dd f => writeFile dd f.1
          (FileContent.record (outcomeRecord pub nowIso (recOf f)))) done0) n = _
    rw [hget2]
    simp [outcomeRecord, recOf, hfail]
  · show hasFile (((glob_json sd).filter (isDueFile now)).foldl
        (fun p f => removeFile p f.1) sd) n = false
    exact hasFile_foldl_remove_of_name _ sd n hname

/-- C2 witness on the sample store with the always-failing publisher:
the due post lands in the archive as failed with the message boom and
leaves the pending store; the future post still counts as the only
other file and the processed count is 1. -/
theorem post_due_failure_archived_witness :
    ∃ st : DueState,
      cmd_post_due pubFail nowSample "2026-06-01T00:00:00+00:00" (some sdSample) [] =
        .ok st ∧
      getFile st.done "20260101_090000_aaaaaa.json" = some (FileContent.record
        { pDue with
          status := some "failed", error := some "boom",
          posted_at := some "2026-06-01T00:00:00+00:00" }) ∧
      hasFile st.pending "20260101_090000_aaaaaa.json" = false ∧
      ({ pDue with
         status := some "failed", error := some "boom",
         posted_at := some "2026-06-01T00:00:00+00:00" } : Post).error = some "boom" ∧
      ("boom" : String) ≠ "" ∧
      st.count = ((glob_json sdSample).filter (isDueFile nowSample)).length :=
  post_due_failure_archived pubFail nowSample "2026-06-01T00:00:00+00:00" sdSample []
    "20260101_090000_aaaaaa.json" pDue "boom" (by decide) (by decide) (by decide)
    (by decide) rfl (by decide)

/-- C3: running the processor twice in succession (same now, no
additions in between) processes each due post exactly once: whatever
the first run archived is gone from the pending store, so the second
run publishes nothing, reports a count of zero, and leaves both stores
exactly as the first run left them. -/
theorem post_due_second_run_zero (pub pub2 : Publisher) (now : Int)
    (nowIso nowIso2 : String) (sd done0 : Dir) (st1 : DueState)
    (hwf : ∀ f ∈ glob_json sd, wfFile f = true)
    (h1 : cmd_post_due pub now nowIso (some sd) done0 = .ok st1) :
    cmd_post_due pub2 now nowIso2 (some st1.pending) st1.done =
      .ok { pending := st1.pending, done := st1.done, calls := [], count := 0 } := by
  rw [cmd_post_due_ok pub now nowIso sd done0 hwf] at h1
  injection h1 with h1
  subst h1
  simp only [cmd_post_due]
  apply dueFold_skip
  intro f hf
  have hg := (mem_glob_json _ f).mp hf
  have hfold : f ∈ (((glob_json sd).filter (isDueFile now)).foldl
      (fun p g => removeFile p g.1) sd) := hg.1
  have hsd : f ∈ sd := mem_foldl_remove_subset _ sd f hfold
  have hfglob : f ∈ glob_json sd := (mem_glob_json sd f).mpr ⟨hsd, hg.2⟩
  refine ⟨hwf f hfglob, ?_⟩
  by_contra hdueT
  have hdueT2 : isDueFile now f = true := by
    cases hbool : isDueFile now f
    · exact absurd hbool hdueT
    · rfl
  have hname : f.1 ∈ ((glob_json sd).filter (isDueFile now)).map Prod.fst :=
    List.mem_map_of_mem Prod.fst (List.mem_filter.mpr ⟨hfglob, hdueT2⟩)
  have habs : hasFile (((glob_json sd).filter (isDueFile now)).foldl
      (fun p g => removeFile p g.1) sd) f.1 = false :=
    hasFile_foldl_remove_of_name _ sd f.1 hname
  have hpres : hasFile (((glob_json sd).filter (isDueFile now)).foldl
      (fun p g => removeFile p g.1) sd) f.1 = true :=
    hasFile_of_mem _ f hfold
  rw [habs] at hpres
  cases hpres

/-- C3 witness: after the sample first run, a second run at the same
now processes zero posts and changes nothing. -/
theorem post_due_second_run_zero_witness :
    cmd_post_due pubFail nowSample "2026-07-01T00:00:00+00:00"
      (some firstRunState.pending) firstRunState.done =
      .ok { pending := firstRunState.pending, done := firstRunState.done,
            calls := [], count := 0 } :=
  post_due_second_run_zero pubOk pubFail nowSample "2026-06-01T00:00:00+00:00"
    "2026-07-01T00:00:00+00:00" sdSample [] firstRunState (by decide)
    (cmd_post_due_ok pubOk nowSample "2026-06-01T00:00:00+00:00" sdSample [] (by decide))

/-- C7: every record lives in exactly one location.  Each operation
preserves key-disjointness of the pending directory and the archive: a
post-due pass moves every record reaching a terminal status into the
archive and out of the pending store and introduces no name into both;
Add writes a single file into the pending store whose generated name
is fresh for the archive (the id-uniqueness invariant); Cancel only
removes from the pending store and never touches the archive. -/
theorem exactly_one_location :
    (∀ (pub : Publisher) (now : Int) (nowIso : String) (sd done0 : Dir)
       (st : DueState),
       (∀ f ∈ glob_json sd, wfFile f = true) →
       cmd_post_due pub now nowIso (some sd) done0 = .ok st →
       dirsDisjoint sd done0 = true →
       dirsDisjoint st.pending st.done = true ∧
       (∀ f ∈ glob_json sd, isDueFile now f = true →
         hasFile st.done f.1 = true ∧ hasFile st.pending f.1 = false)) ∧
    (∀ (text dt : String) (r q l : Option String) (tz : Option Int)
       (digest : String) (nowI : Int) (nowIso : String) (dir done0 : Dir)
       (res : AddResult),
       cmd_add text dt r q l tz digest nowI nowIso dir = .ok res →
       dirsDisjoint dir done0 = true →
       (∀ nm, res.post.id = some nm → hasFile done0 (nm ++ ".json") = false) →
       dirsDisjoint res.dir done0 = true) ∧
    (∀ (pending done0 p2 : Dir) (postId : String),
       cmd_cancel pending postId = .ok p2 →
       dirsDisjoint pending done0 = true →
       dirsDisjoint p2 done0 = true) := by
  refine ⟨?_, ?_, ?_⟩
  · intro pub now nowIso sd done0 st hwf hrun hdisj
    rw [cmd_post_due_ok pub now nowIso sd done0 hwf] at hrun
    injection hrun with hrun
    subst hrun
    constructor
    · rw [dirsDisjoint_iff]
      intro x hx
      have hfold : x ∈ (((glob_json sd).filter (isDueFile now)).foldl
          (fun p g => removeFile p g.1) sd) := hx
      have hxsd : x ∈ sd := mem_foldl_remove_subset _ sd x hfold
      cases hbool : hasFile (((glob_json sd).filter (isDueFile now)).foldl
          (fun dd f => writeFile dd f.1
            (FileContent.record (outcomeRecord pub nowIso (recOf f)))) done0) x.1 with
      | false => exact hbool
      | true =>
        rcases hasFile_foldl_write ((glob_json sd).filter (isDueFile now))
            (fun f => FileContent.record (outcomeRecord pub nowIso (recOf f)))
            done0 x.1 hbool with h1 | h1
        · rw [(dirsDisjoint_iff sd done0).mp hdisj x hxsd] at h1
          cases h1
        · have habs := hasFile_foldl_remove_of_name
            ((glob_json sd).filter (isDueFile now)) sd x.1 h1
          have hpres := hasFile_of_mem _ x hfold
          rw [habs] at hpres
          cases hpres
    · intro f hf hdue
      have hname : f.1 ∈ ((glob_json sd).filter (isDueFile now)).map Prod.fst :=
        List.mem_map_of_mem Prod.fst (List.mem_filter.mpr ⟨hf, hdue⟩)
      exact ⟨hasFile_foldl_write_of_name _ _ done0 f.1 hname,
             hasFile_foldl_remove_of_name _ sd f.1 hname⟩
  · intro text dt r q l tz digest nowI nowIso dir done0 res hok hdisj hfresh
    cases tz with
    | none => simp [cmd_add] at hok
    | some off =>
      cases hp : strptime_add (replaceT dt) with
      | none => simp [cmd_add, hp] at hok
      | some naive =>
        simp only [cmd_add, hp] at hok
        cases hok
        rw [dirsDisjoint_iff]
        intro x hx
        rcases (mem_writeFile _ _ _ x).mp hx with ⟨hxd, _⟩ | hxe
        · exact (dirsDisjoint_iff dir done0).mp hdisj x hxd
        · subst hxe
          exact hfresh (generate_post_id { naive with offset := some off } digest) rfl
  · intro pending done0 p2 postId hok hdisj
    by_cases hh : hasFile pending (postId ++ ".json") = true
    · simp only [cmd_cancel, hh, if_true] at hok
      injection hok with hok
      subst hok
      rw [dirsDisjoint_iff]
      intro x hx
      exact (dirsDisjoint_iff pending done0).mp hdisj x
        ((mem_removeFile _ _ x).mp hx).1
    · simp [cmd_cancel, hh] at hok

/-- C7 witness: the invariant instantiated on the sample first run, on
the scenario Add into an empty archive, and on a concrete Cancel. -/
theorem exactly_one_location_witness :
    (dirsDisjoint firstRunState.pending firstRunState.done = true ∧
     (∀ f ∈ glob_json sdSample, isDueFile nowSample f = true →
       hasFile firstRunState.done f.1 = true ∧
       hasFile firstRunState.pending f.1 = false)) ∧
    dirsDisjoint addScenarioRes.dir [] = true ∧
    dirsDisjoint (removeFile [("a.json", FileContent.record pDue)] ("a" ++ ".json"))
      [("b.json", FileContent.record pFuture)] = true :=
  ⟨exactly_one_location.1 pubOk nowSample "2026-06-01T00:00:00+00:00" sdSample []
     firstRunState (by decide)
     (cmd_post_due_ok pubOk nowSample "2026-06-01T00:00:00+00:00" sdSample []
       (by decide)) (by decide),
   exactly_one_location.2.1 "Hello" "2026-02-25 09:00" none none none (some 32400)
     hexDigestSample 0 "2026-01-01T00:00:00+09:00" [] [] addScenarioRes (by rfl)
     (by decide) (fun nm _ => rfl),
   exactly_one_location.2.2 [("a.json", FileContent.record pDue)]
     [("b.json", FileContent.record pFuture)]
     (removeFile [("a.json", FileContent.record pDue)] ("a" ++ ".json")) "a"
     (by rfl) (by decide)⟩
